import Mathlib

/-!
Shallow embedding of the bayt-jobs-scraper crawl-and-extract engine.

The embedding follows the source files of the repository:
  src/extractors/utils.py        (HttpClient.fetch, clean_text, build_absolute_url,
                                  parse_relative_date)
  src/extractors/bayt_parser.py  (BaytJobScraper: scrape_searches, _scrape_single_search,
                                  _parse_listing_page, _find_job_cards, _parse_job_card,
                                  _find_next_page_url, JobListing)

Library dependencies of the source (urllib.parse.urljoin, the datetime module,
dateutil.relativedelta, BeautifulSoup) are modelled from their documented behaviour:
urljoin is an opaque parameter of the environment, calendar arithmetic follows
datetime/relativedelta semantics, and parsed HTML pages are represented directly as
DOM trees with the soupsieve selector semantics (document-order matching).
-/

namespace BaytSpec

/-- Python whitespace test for the ASCII characters recognised by str.strip and
the regex class backslash-s: space, tab, newline, carriage return, vertical tab,
form feed. -/
def pySpace (c : Char) : Bool :=
  c.toNat = 32 || c.toNat = 9 || c.toNat = 10 || c.toNat = 13 || c.toNat = 11 || c.toNat = 12

/-- ASCII digit test, the characters matched by the regex class backslash-d. -/
def pyIsDigit (c : Char) : Bool := 48 ≤ c.toNat && c.toNat ≤ 57

/-- ASCII lower-casing of one character, modelling Python str.lower on the
character set the scraper deals with. -/
def lowerChar (c : Char) : Char :=
  if 65 ≤ c.toNat && c.toNat ≤ 90 then Char.ofNat (c.toNat + 32) else c

/-- Python str.lower, per character. -/
def pyLower (s : String) : String := ⟨s.data.map lowerChar⟩

/-- Left strip on a character list. -/
def stripLeftL (l : List Char) : List Char := l.dropWhile pySpace

/-- Right strip on a character list. -/
def stripRightL (l : List Char) : List Char := (l.reverse.dropWhile pySpace).reverse

/-- Python str.strip on a character list. -/
def pyStripL (l : List Char) : List Char := stripRightL (stripLeftL l)

/-- Python str.strip. -/
def pyStrip (s : String) : String := ⟨pyStripL s.data⟩

/-- Replacement of every maximal whitespace run by a single space, modelling
re.sub(backslash-s+, single space, text) from clean_text in utils.py. -/
def collapseWS : List Char → List Char
  | [] => []
  | [c] => [if pySpace c then ' ' else c]
  | c :: c2 :: cs =>
    if pySpace c && pySpace c2 then collapseWS (c2 :: cs)
    else (if pySpace c then ' ' else c) :: collapseWS (c2 :: cs)

/-- clean_text from utils.py: collapse whitespace runs, then strip. -/
def clean_text (s : String) : String := ⟨pyStripL (collapseWS s.data)⟩

/-- Python str.split on a single separator character: always returns a
non-empty list of (possibly empty) segments. -/
def splitOnChar (sep : Char) : List Char → List (List Char)
  | [] => [[]]
  | c :: rest =>
    if c = sep then [] :: splitOnChar sep rest
    else
      match splitOnChar sep rest with
      | h :: t => (c :: h) :: t
      | [] => [[c]]

/-- Substring test on character lists, modelling the Python operator in. -/
def containsSub (needle : List Char) : List Char → Bool
  | [] => needle.isEmpty
  | c :: cs => needle.isPrefixOf (c :: cs) || containsSub needle cs

/-- Substring test on strings. -/
def strContains (hay needle : String) : Bool := containsSub needle.data hay.data

/-- Numeric value of a digit string, modelling Python int() on the regex group. -/
def digitsVal (l : List Char) : Nat := l.foldl (fun a c => a * 10 + (c.toNat - 48)) 0

/-! Calendar model, following the semantics of datetime.date, datetime.timedelta
and dateutil.relativedelta used by parse_relative_date. -/

/-- A calendar date (proleptic Gregorian, as datetime.date). -/
structure Date where
  year : Int
  month : Nat
  day : Nat
deriving DecidableEq

/-- Gregorian leap-year rule (Python calendar.isleap). -/
def isLeap (y : Int) : Bool := (y % 4 = 0 && !(y % 100 = 0)) || y % 400 = 0

/-- Number of days of a month. -/
def daysInMonth (y : Int) (m : Nat) : Nat :=
  if m = 2 then (if isLeap y then 29 else 28)
  else if m = 4 || m = 6 || m = 9 || m = 11 then 30
  else 31

/-- The previous calendar day. -/
def prevDay (d : Date) : Date :=
  if 1 < d.day then { d with day := d.day - 1 }
  else if 1 < d.month then
    { year := d.year, month := d.month - 1, day := daysInMonth d.year (d.month - 1) }
  else { year := d.year - 1, month := 12, day := 31 }

/-- Exact day subtraction (datetime.timedelta / relativedelta with days or weeks). -/
def subDays (d : Date) : Nat → Date
  | 0 => d
  | n + 1 => subDays (prevDay d) n

/-- Calendar-aware month subtraction (dateutil.relativedelta with months):
shift the month index, clamping the day to the last valid day of the
resulting month. -/
def subMonths (d : Date) (n : Nat) : Date :=
  let total : Int := d.year * 12 + (d.month : Int) - 1 - (n : Int)
  let y : Int := Int.fdiv total 12
  let m : Nat := (Int.fmod total 12).toNat + 1
  { year := y, month := m, day := min d.day (daysInMonth y m) }

/-- Calendar-aware year subtraction (dateutil.relativedelta with years):
shift the year, clamping the day (Feb 29 becomes Feb 28). -/
def subYears (d : Date) (n : Nat) : Date :=
  let y : Int := d.year - (n : Int)
  { year := y, month := d.month, day := min d.day (daysInMonth y d.month) }

/-- Zero padding to two digits. -/
def pad2 (n : Nat) : String := if n < 10 then "0" ++ toString n else toString n

/-- Zero padding to four digits, for the year of an ISO date. -/
def pad4 (n : Nat) : String :=
  if n < 10 then "000" ++ toString n
  else if n < 100 then "00" ++ toString n
  else if n < 1000 then "0" ++ toString n
  else toString n

/-- ISO-8601 date string, modelling date.isoformat(). -/
def isoformat (d : Date) : String :=
  pad4 d.year.toNat ++ "-" ++ pad2 d.month ++ "-" ++ pad2 d.day

/-- Units recognised by the relative-date regex of parse_relative_date. -/
inductive RUnit where
  | day
  | week
  | month
  | year
deriving DecidableEq

/-- Calendar subtraction dispatch of parse_relative_date: days and weeks use
exact day arithmetic, months and years are calendar-aware. -/
def applySub (d : Date) (v : Nat) : RUnit → Date
  | .day => subDays d v
  | .week => subDays d (7 * v)
  | .month => subMonths d v
  | .year => subYears d v

/-- Alternatives of the unit group of the regex, in the order the regex lists
them, each with the interval kind the source maps it to. -/
def unitWords : List (List Char × RUnit) :=
  [("day".data, .day), ("days".data, .day),
   ("week".data, .week), ("weeks".data, .week),
   ("month".data, .month), ("months".data, .month),
   ("year".data, .year), ("years".data, .year)]

/-- After a candidate unit word, the regex requires one or more whitespace
characters followed by the literal ago; the match is a prefix match, so any
trailing text is accepted. -/
def tryUnit (w : List Char) (cs : List Char) : Bool :=
  if w.isPrefixOf cs then
    let r := cs.drop w.length
    if (r.takeWhile pySpace).isEmpty then false
    else ("ago".data).isPrefixOf (r.dropWhile pySpace)
  else false

/-- First unit alternative that lets the whole pattern match, in regex order. -/
def findUnit (cs : List Char) : List (List Char × RUnit) → Option RUnit
  | [] => none
  | (w, u) :: rest => if tryUnit w cs then some u else findUnit cs rest

/-- The anchored prefix match of the regex of parse_relative_date:
digits, whitespace, a unit word, whitespace, the literal ago. -/
def matchRel (cs : List Char) : Option (Nat × RUnit) :=
  let ds := cs.takeWhile pyIsDigit
  if ds.isEmpty then none
  else
    let r1 := cs.dropWhile pyIsDigit
    if (r1.takeWhile pySpace).isEmpty then none
    else
      match findUnit (r1.dropWhile pySpace) unitWords with
      | some u => some (digitsVal ds, u)
      | none => none

/-- parse_relative_date from utils.py. The reference instant is the now
argument (in the source it defaults to datetime.utcnow()). -/
def parse_relative_date (dateStr : String) (now : Date) : String :=
  if dateStr = "" then ""
  else
    let text := pyLower (pyStrip dateStr)
    if text = "today" then isoformat now
    else if text = "yesterday" then isoformat (subDays now 1)
    else
      match matchRel text.data with
      | some (v, u) => isoformat (applySub now v u)
      | none => pyStrip dateStr

/-! DOM model and selector engine, modelling the BeautifulSoup/soupsieve
operations the scraper uses. -/

/-- Attributes of an element that the scraper's selectors inspect. -/
structure Attrs where
  classes : List String := []
  href : Option String := none
  rel : Option String := none
  src : Option String := none
  alt : Option String := none

/-- A DOM node: an element with a tag, attributes and children, or a text node
(a NavigableString). A parsed page is represented by a synthetic root node
whose descendants are the document's nodes. -/
inductive Node where
  | elem (tag : String) (attrs : Attrs) (children : List Node)
  | text (s : String)

/-- Attribute lookup by name, as Tag.get. -/
def getAttr (a : Attrs) : String → Option String
  | "href" => a.href
  | "rel" => a.rel
  | "src" => a.src
  | "alt" => a.alt
  | _ => none

/-- Attribute of a node, none for text nodes. -/
def nodeAttr (n : Node) (name : String) : Option String :=
  match n with
  | .elem _ a _ => getAttr a name
  | .text _ => none

/-- An attribute value that Python considers truthy: present and non-empty. -/
def truthyAttr (n : Node) (name : String) : Option String :=
  match nodeAttr n name with
  | some v => if v = "" then none else some v
  | none => none

/-- Element test for a given tag name. -/
def isTag (t : String) : Node → Bool
  | .elem tg _ _ => tg = t
  | .text _ => false

/-- Atomic attribute conditions appearing in the scraper's CSS selectors. -/
inductive AttrTest where
  | eqv (name val : String)
  | containsv (name val : String)

/-- Truth of an attribute condition on an element's attributes. -/
def AttrTest.holds (a : Attrs) : AttrTest → Bool
  | .eqv n v => getAttr a n = some v
  | .containsv n v =>
    match getAttr a n with
    | some s => containsSub v.data s.data
    | none => false

/-- A compound selector: optional tag, required classes, attribute conditions. -/
structure SimpleSel where
  tag : Option String := none
  classes : List String := []
  tests : List AttrTest := []

/-- Truth of a compound selector on one node. -/
def matchesSimple (n : Node) (s : SimpleSel) : Bool :=
  match n with
  | .text _ => false
  | .elem t a _ =>
    (match s.tag with | some tg => t = tg | none => true) &&
    s.classes.all (fun c => a.classes.contains c) &&
    s.tests.all (AttrTest.holds a)

/-- A descendant-combinator chain: the ancestor selectors, outermost first,
then the selector the target node itself must satisfy. -/
structure Chain where
  anc : List SimpleSel := []
  target : SimpleSel

/-- Ordered embedding of the ancestor selectors into an ancestor list
(outermost first): each selector is matched by a distinct ancestor, in order. -/
def ancEmbeds : List SimpleSel → List Node → Bool
  | [], _ => true
  | _ :: _, [] => false
  | s :: ss, a :: as => (matchesSimple a s && ancEmbeds ss as) || ancEmbeds (s :: ss) as

/-- Truth of a chain on a node given its ancestor list (outermost first). -/
def chainMatches (ch : Chain) (n : Node) (ancs : List Node) : Bool :=
  matchesSimple n ch.target && ancEmbeds ch.anc ancs

mutual

/-- Preorder traversal of a list of sibling subtrees: every node paired with
its ancestor list (outermost first) and its list of following siblings. -/
def infoList (ancs : List Node) : List Node → List (Node × List Node × List Node)
  | [] => []
  | c :: cs => (c, ancs, cs) :: infoNode ancs c ++ infoList ancs cs

/-- Preorder traversal of the proper descendants of one node. -/
def infoNode (ancs : List Node) : Node → List (Node × List Node × List Node)
  | .text _ => []
  | .elem t a cs => infoList (ancs ++ [.elem t a cs]) cs

end

/-- Every proper descendant of the root, with ancestors and following
siblings, in document order. -/
def nodesInfo (root : Node) : List (Node × List Node × List Node) :=
  infoNode [] root

/-- Proper descendants of the root in document order. -/
def descendants (root : Node) : List Node := (nodesInfo root).map (·.1)

/-- Tag.select with a selector group: all matches of any chain of the group,
in document order (soupsieve semantics; a comma-separated group is matched in
document order, never in per-alternative priority order). -/
def select (root : Node) (g : List Chain) : List Node :=
  ((nodesInfo root).filter (fun p => g.any (fun ch => chainMatches ch p.1 p.2.1))).map (·.1)

/-- Tag.select_one: first match of the group in document order. -/
def selectOne (root : Node) (g : List Chain) : Option Node := (select root g).head?

/-- First match of the group together with its following siblings, used for
the numeric-pagination strategy. -/
def selectOneInfo (root : Node) (g : List Chain) : Option (Node × List Node × List Node) :=
  ((nodesInfo root).filter (fun p => g.any (fun ch => chainMatches ch p.1 p.2.1))).head?

/-- Tag.find with a tag name: first descendant element with that tag. -/
def findTag (root : Node) (t : String) : Option Node :=
  (descendants root).find? (isTag t)

/-- Tag.find_all with a tag name: every descendant element with that tag. -/
def findAllTag (root : Node) (t : String) : List Node :=
  (descendants root).filter (isTag t)

/-- Tag.find with a string filter: the first text node, in document order,
whose content is non-empty and contains the needle. -/
def findStringContaining (root : Node) (needle : String) : Option String :=
  ((descendants root).filterMap (fun n => match n with | .text s => some s | _ => none)).find?
    (fun s => strContains s needle)

mutual

/-- Concatenated text content of a node (Tag.get_text). -/
def getText : Node → String
  | .text s => s
  | .elem _ _ cs => getTextList cs

/-- Concatenated text content of a list of sibling subtrees. -/
def getTextList : List Node → String
  | [] => ""
  | c :: cs => getText c ++ getTextList cs

end

/-! Environment: the library urljoin and the reference instant. -/

/-- Ambient parameters of the scraper: the urljoin function of urllib.parse
(a library dependency, kept opaque) and the current instant used when
parse_relative_date is called without a reference date. -/
structure Env where
  urljoin : String → String → String
  now : Date

/-- build_absolute_url from utils.py: empty links stay empty, otherwise the
link is resolved against the base with urljoin. -/
def build_absolute_url (env : Env) (base link : String) : String :=
  if link = "" then "" else env.urljoin base link

/-- JobListing from bayt_parser.py: a flat record of eleven string fields. -/
structure JobListing where
  searchUrl : String
  jobTitle : String
  jobLink : String
  jobSalary : String
  jobType : String
  jobCareerLevel : String
  jobCompanyLogo : String
  jobCompany : String
  jobLocation : String
  jobDescription : String
  jobCreatedAt : String
deriving DecidableEq

/-! Selector constants of the scraper, written as chains. -/

/-- Selector with only a tag. -/
def selTag (t : String) : SimpleSel := { tag := some t }

/-- Selector with only a class. -/
def selClass (c : String) : SimpleSel := { classes := [c] }

/-- Selector with a tag and a class. -/
def selTC (t c : String) : SimpleSel := { tag := some t, classes := [c] }

/-- Chain of a single compound selector. -/
def ch (s : SimpleSel) : Chain := { target := s }

/-- Chain with one ancestor selector. -/
def chD (a s : SimpleSel) : Chain := { anc := [a], target := s }

/-- Chain with two ancestor selectors. -/
def chDD (a b s : SimpleSel) : Chain := { anc := [a, b], target := s }

/-- The group h2 a, h3 a, a.job-title, a.js-job-title of _parse_job_card. -/
def titleGroup : List Chain :=
  [chD (selTag "h2") (selTag "a"), chD (selTag "h3") (selTag "a"),
   ch (selTC "a" "job-title"), ch (selTC "a" "js-job-title")]

/-- The group .company, .company-name, .jbHeading span a, .jbHeading span. -/
def companyGroup : List Chain :=
  [ch (selClass "company"), ch (selClass "company-name"),
   chDD (selClass "jbHeading") (selTag "span") (selTag "a"),
   chD (selClass "jbHeading") (selTag "span")]

/-- The group .location, .jbLoc, .job-location. -/
def locationGroup : List Chain :=
  [ch (selClass "location"), ch (selClass "jbLoc"), ch (selClass "job-location")]

/-- The group .salary, .job-salary. -/
def salaryGroup : List Chain := [ch (selClass "salary"), ch (selClass "job-salary")]

/-- The group .job-type, .jbType, .employment-type. -/
def typeGroup : List Chain :=
  [ch (selClass "job-type"), ch (selClass "jbType"), ch (selClass "employment-type")]

/-- The group img with alt containing logo, img with src containing logo. -/
def logoGroup : List Chain :=
  [ch { tag := some "img", tests := [AttrTest.containsv "alt" "logo"] },
   ch { tag := some "img", tests := [AttrTest.containsv "src" "logo"] }]

/-- The group .job-desc, .job-description, .jbDescription, p. -/
def descGroup : List Chain :=
  [ch (selClass "job-desc"), ch (selClass "job-description"),
   ch (selClass "jbDescription"), ch (selTag "p")]

/-- The group .date, .jbDate, .job-date. -/
def dateGroup : List Chain :=
  [ch (selClass "date"), ch (selClass "jbDate"), ch (selClass "job-date")]

/-! Field extraction, modelling _parse_job_card line by line. -/

/-- Title element: the first match of the title group, else the first anchor
in the card. -/
def titleEl (card : Node) : Option Node :=
  match selectOne card titleGroup with
  | some el => some el
  | none => findTag card "a"

/-- Extracted job title: collapsed text of the title element, else empty. -/
def extractTitle (card : Node) : String :=
  match titleEl card with
  | some el => clean_text (getText el)
  | none => ""

/-- Raw href of the title element (a missing href behaves like an empty one,
since build_absolute_url maps both to the empty string). -/
def extractLinkRaw (card : Node) : String :=
  match titleEl card with
  | some el => (match nodeAttr el "href" with | some h => h | none => "")
  | none => ""

/-- Extracted job link: raw href resolved against the current page URL. -/
def extractLink (env : Env) (card : Node) (currentUrl : String) : String :=
  build_absolute_url env currentUrl (extractLinkRaw card)

/-- Common per-field pattern: collapsed text of the first match of a selector
group, else the empty string. -/
def firstGroupText (card : Node) (g : List Chain) : String :=
  match selectOne card g with
  | some el => clean_text (getText el)
  | none => ""

/-- Career-level extraction of _parse_job_card: first text node containing the
phrase Career Level, stripped, split on colons; the second segment, cleaned,
when the split produced more than one part, else empty. -/
def extractCareerLevel (card : Node) : String :=
  match findStringContaining card "Career Level" with
  | none => ""
  | some s =>
    match splitOnChar ':' (pyStripL s.data) with
    | _ :: p1 :: _ => clean_text ⟨p1⟩
    | _ => ""

/-- Company-logo extraction: first logo image with a truthy src, resolved. -/
def extractLogo (env : Env) (card : Node) (currentUrl : String) : String :=
  match selectOne card logoGroup with
  | some el =>
    (match truthyAttr el "src" with
     | some src => build_absolute_url env currentUrl src
     | none => "")
  | none => ""

/-- Created-at extraction: raw text of the first date-group match, passed to
parse_relative_date when non-empty. -/
def extractCreatedAt (env : Env) (card : Node) : String :=
  let raw := firstGroupText card dateGroup
  if raw = "" then "" else parse_relative_date raw env.now

/-- The Field Extractor _parse_job_card: builds a JobListing from one card, or
none when both the extracted title and the extracted link are empty. -/
def parse_job_card (env : Env) (card : Node) (searchUrl currentUrl : String) :
    Option JobListing :=
  let title := extractTitle card
  let link := extractLink env card currentUrl
  if title = "" ∧ link = "" then none
  else some {
    searchUrl := searchUrl
    jobTitle := title
    jobLink := link
    jobSalary := firstGroupText card salaryGroup
    jobType := firstGroupText card typeGroup
    jobCareerLevel := extractCareerLevel card
    jobCompanyLogo := extractLogo env card currentUrl
    jobCompany := firstGroupText card companyGroup
    jobLocation := firstGroupText card locationGroup
    jobDescription := firstGroupText card descGroup
    jobCreatedAt := extractCreatedAt env card
  }

/-! Job-card locator _find_job_cards. -/

/-- Selector div.has-pointer-d. -/
def cardSel1 : List Chain := [ch (selTC "div" "has-pointer-d")]

/-- Selector div.job-card. -/
def cardSel2 : List Chain := [ch (selTC "div" "job-card")]

/-- Selector li.job. -/
def cardSel3 : List Chain := [ch (selTC "li" "job")]

/-- Selector article.job. -/
def cardSel4 : List Chain := [ch (selTC "article" "job")]

/-- The Job-Card Locator _find_job_cards: the matches of the first selector in
the fixed order that yields any, else every li node of the document. -/
def find_job_cards (soup : Node) : List Node :=
  match select soup cardSel1 with
  | c1 :: cs1 => c1 :: cs1
  | [] =>
    match select soup cardSel2 with
    | c2 :: cs2 => c2 :: cs2
    | [] =>
      match select soup cardSel3 with
      | c3 :: cs3 => c3 :: cs3
      | [] =>
        match select soup cardSel4 with
        | c4 :: cs4 => c4 :: cs4
        | [] => findAllTag soup "li"

/-! Next-page resolver _find_next_page_url. -/

/-- Selector a with attribute rel equal to next. -/
def relNextGroup : List Chain :=
  [ch { tag := some "a", tests := [AttrTest.eqv "rel" "next"] }]

/-- The group a.next, a.pagination-next, li.next a. -/
def classNextGroup : List Chain :=
  [ch (selTC "a" "next"), ch (selTC "a" "pagination-next"),
   chD (selTC "li" "next") (selTag "a")]

/-- The group ul.pagination li.active, ul.pagination li.selected. -/
def activeGroup : List Chain :=
  [chD (selTC "ul" "pagination") (selTC "li" "active"),
   chD (selTC "ul" "pagination") (selTC "li" "selected")]

/-- Strategy 1 of _find_next_page_url: the first rel-next anchor, when it
carries a truthy href. -/
def strat1 (soup : Node) : Option String :=
  match selectOne soup relNextGroup with
  | some l => truthyAttr l "href"
  | none => none

/-- Strategy 2: the first anchor of the class-based group, when it carries a
truthy href. -/
def strat2 (soup : Node) : Option String :=
  match selectOne soup classNextGroup with
  | some l => truthyAttr l "href"
  | none => none

/-- Strategy 3, numeric pagination: the active or selected item of a
pagination list, its next sibling li, that sibling's first anchor, when it
carries a truthy href. -/
def strat3 (soup : Node) : Option String :=
  match selectOneInfo soup activeGroup with
  | none => none
  | some (_, _, sibs) =>
    match sibs.find? (isTag "li") with
    | none => none
    | some nextLi =>
      match findTag nextLi "a" with
      | none => none
      | some a2 => truthyAttr a2 "href"

/-- The Next-Page Resolver _find_next_page_url: the three strategies in order,
first producing a truthy href wins, the href resolved against the current
page URL; none when no strategy matches. -/
def find_next_page_url (env : Env) (soup : Node) (currentUrl : String) : Option String :=
  match strat1 soup with
  | some h => some (build_absolute_url env currentUrl h)
  | none =>
    match strat2 soup with
    | some h => some (build_absolute_url env currentUrl h)
    | none =>
      match strat3 soup with
      | some h => some (build_absolute_url env currentUrl h)
      | none => none

/-- The page parser _parse_listing_page: the records of every admissible card,
in order, together with the resolved next-page URL (resolution happens on
every parsed page). -/
def parse_listing_page (env : Env) (soup : Node) (searchUrl currentUrl : String) :
    List JobListing × Option String :=
  ((find_job_cards soup).filterMap (fun c => parse_job_card env c searchUrl currentUrl),
   find_next_page_url env soup currentUrl)

/-! Pagination crawler _scrape_single_search and runner scrape_searches. -/

/-- Observable events of one crawl: a page fetch, and a next-page resolution
performed while parsing a fetched page. -/
inductive Ev where
  | fetch (url : String)
  | resolve (url : String)
deriving DecidableEq

/-- The crawl loop of _scrape_single_search. The site maps a URL to the parsed
page of a successful fetch, or none for an exhausted-retries failure. The
fuel bounds the number of iterations (the Python while loop may diverge);
the final Bool is false exactly when the fuel ran out before the loop
reached one of its own stop conditions. Returns the accumulated records,
the event trace and that completion flag. -/
def scrapeAux (env : Env) (site : String → Option Node) (searchUrl : String)
    (maxItems : Int) : Nat → Option String → List JobListing →
    List JobListing × List Ev × Bool
  | _, none, acc => (acc, [], true)
  | fuel, some url, acc =>
    if maxItems ≤ (acc.length : Int) then (acc, [], true)
    else
      match fuel with
      | 0 => (acc, [], false)
      | fuel' + 1 =>
        match site url with
        | none => (acc, [Ev.fetch url], true)
        | some soup =>
          match parse_listing_page env soup searchUrl url with
          | (jobs, next2) =>
            let acc2 := acc ++ jobs.take (maxItems.toNat - acc.length)
            match next2 with
            | none => (acc2, [Ev.fetch url, Ev.resolve url], true)
            | some u2 =>
              match scrapeAux env site searchUrl maxItems fuel' (some u2) acc2 with
              | (r, tr, ok) => (r, Ev.fetch url :: Ev.resolve url :: tr, ok)

/-- The Pagination Crawler _scrape_single_search: run the loop from the search
URL with an empty accumulator. -/
def scrape_single_search (env : Env) (site : String → Option Node) (fuel : Nat)
    (searchUrl : String) (maxItems : Int) : List JobListing × List Ev × Bool :=
  scrapeAux env site searchUrl maxItems fuel (some searchUrl) []

/-- One search definition: an optional url and an optional maxItems. -/
structure SearchDef where
  url : Option String := none
  maxItems : Option Int := none

/-- Effective item cap of scrape_searches: the definition's maxItems when
present and truthy (non-zero), else the fallback. -/
def effectiveMax (s : SearchDef) (fb : Int) : Int :=
  match s.maxItems with
  | some m => if m = 0 then fb else m
  | none => fb

/-- The Search-Set Runner scrape_searches: skip definitions without a truthy
url, crawl each remaining one with its effective cap, concatenate in input
order. -/
def scrape_searches (env : Env) (site : String → Option Node) (fuel : Nat)
    (searches : List SearchDef) (fb : Int) : List JobListing :=
  match searches with
  | [] => []
  | s :: rest =>
    let tail := scrape_searches env site fuel rest fb
    match s.url with
    | none => tail
    | some u =>
      if u = "" then tail
      else (scrape_single_search env site fuel u (effectiveMax s fb)).1 ++ tail

/-! Resilient fetcher HttpClient.fetch. -/

/-- Outcome of one HTTP attempt: a body, or a transport or HTTP-status error
(raise_for_status makes error statuses raise, hence retry). -/
inductive AttemptResult where
  | ok (body : String)
  | err

/-- Attempt loop of HttpClient.fetch starting at attempt number i with the
given number of attempts remaining. Returns the result and the number of
attempts performed. -/
def fetchFromAttempt (net : Nat → AttemptResult) : Nat → Nat → Option String × Nat
  | _, 0 => (none, 0)
  | i, r + 1 =>
    match net i with
    | .ok b => (some b, 1)
    | .err =>
      if r = 0 then (none, 1)
      else
        match fetchFromAttempt net (i + 1) r with
        | (res, n) => (res, n + 1)

/-- HttpClient.fetch from utils.py: up to maxRetries attempts, the first
successful body wins, none after exhaustion; never raises. -/
def HttpClient.fetch (net : Nat → AttemptResult) (maxRetries : Nat) : Option String × Nat :=
  fetchFromAttempt net 1 maxRetries

/-! Alternative readings of two spec sentences, used to compare the code's
behaviour with the claim's wording. -/

/-- Everything after the first occurrence of the separator, when there is one. -/
def afterFirst (sep : Char) : List Char → Option (List Char)
  | [] => none
  | c :: t => if c = sep then some t else afterFirst sep t

/-- Career level as the claim words it: the whitespace-collapsed trimmed
remainder of the matched text after the first colon (everything after the
first colon, not just the next segment). -/
def claimCareerLevel (card : Node) : String :=
  match findStringContaining card "Career Level" with
  | none => ""
  | some s =>
    match afterFirst ':' (pyStripL s.data) with
    | some rest => clean_text ⟨rest⟩
    | none => ""

/-- Description as the claim words it: the description-class selectors are
tried first, and the first paragraph node is used only when no
description-class element exists in the card. -/
def claimDescription (card : Node) : String :=
  match selectOne card [ch (selClass "job-desc"), ch (selClass "job-description"),
      ch (selClass "jbDescription")] with
  | some el => clean_text (getText el)
  | none =>
    match findTag card "p" with
    | some p => clean_text (getText p)
    | none => ""

/-! Concrete fixtures used by witnesses and counterexamples. -/

/-- Attributes carrying only classes. -/
def attrsC (cs : List String) : Attrs := { classes := cs }

/-- Fixture card: a title anchor, a paragraph before a description-class
element, a career-level text with two colons, and a date. -/
def card0 : Node :=
  .elem "div" (attrsC ["has-pointer-d"])
    [ .elem "h2" {} [.elem "a" { href := some "/job/1" } [.text "Engineer"]],
      .elem "p" {} [.text "PARA"],
      .elem "div" (attrsC ["job-desc"]) [.text "DESC"],
      .text "Career Level: Mid: Senior",
      .elem "span" (attrsC ["date"]) [.text "3 days ago"] ]

/-- Fixture environment: urljoin that returns the link unchanged, and a fixed
reference instant. -/
def env0 : Env := { urljoin := fun _ l => l, now := ⟨2021, 3, 31⟩ }

/-- The record the Field Extractor produces from the fixture card. -/
def rec0 : JobListing :=
  { searchUrl := "S", jobTitle := "Engineer", jobLink := "/job/1", jobSalary := "",
    jobType := "", jobCareerLevel := "Mid", jobCompanyLogo := "", jobCompany := "",
    jobLocation := "", jobDescription := "PARA", jobCreatedAt := "2021-03-28" }

/-- Fixture listing page: three fixture cards and a rel-next anchor to p2. -/
def page1 : Node :=
  .elem "html" {} [ card0, card0, card0,
    .elem "a" { rel := some "next", href := some "p2" } [.text "next"] ]

/-- Fixture empty page: no cards, no pagination. -/
def page2 : Node := .elem "html" {} []

/-- Fixture site: p1 is the listing page, p2 the empty page, everything else
fails to fetch. -/
def site0 : String → Option Node :=
  fun u => if u = "p1" then some page1 else if u = "p2" then some page2 else none

/-- Fixture card that is not a job posting: no title, no link. -/
def cardNoise : Node := .elem "li" {} [.text "noise"]

/-- Fixture site where only p1 is served: the p2 link of page1 dies with
exhausted retries. -/
def siteF : String → Option Node := fun u => if u = "p1" then some page1 else none

/-- Fixture page whose only next-page hint is numeric pagination: the active
item's next element sibling that is a li holds the anchor. -/
def pag : Node :=
  .elem "html" {}
    [ .elem "ul" (attrsC ["pagination"])
        [ .elem "li" (attrsC ["active"]) [.elem "a" { href := some "p1" } [.text "1"]],
          .text "sep",
          .elem "span" {} [],
          .elem "li" {} [.elem "a" { href := some "pX" } [.text "2"]] ] ]

/-- Fixture page with no card-selector match but one li node. -/
def liPage : Node := .elem "html" {} [.elem "ul" {} [.elem "li" {} [.text "x"]]]

/-- Fixture page with zero job cards and a rel-next anchor to e2. -/
def pageE1 : Node :=
  .elem "html" {} [.elem "a" { rel := some "next", href := some "e2" } [.text "next"]]

/-- Fixture page with zero job cards and no next link. -/
def pageE2 : Node := .elem "html" {} []

/-- Fixture site for the empty-page crawl: e1 links to e2, e2 is terminal. -/
def siteE : String → Option Node :=
  fun u => if u = "e1" then some pageE1 else if u = "e2" then some pageE2 else none

/-! Helper lemmas about lists and characters. -/

theorem takeWhile_append_of_all {p : Char → Bool} (l r : List Char)
    (h : ∀ c ∈ l, p c = true) : (l ++ r).takeWhile p = l ++ r.takeWhile p := by
  induction l with
  | nil => simp
  | cons c t ih =>
    have hc : p c = true := h c (List.mem_cons_self c t)
    simp only [List.cons_append, List.takeWhile_cons, hc, if_true]
    rw [ih (fun x hx => h x (List.mem_cons_of_mem c hx))]

theorem dropWhile_append_of_all {p : Char → Bool} (l r : List Char)
    (h : ∀ c ∈ l, p c = true) : (l ++ r).dropWhile p = r.dropWhile p := by
  induction l with
  | nil => simp
  | cons c t ih =>
    have hc : p c = true := h c (List.mem_cons_self c t)
    simp only [List.cons_append, List.dropWhile_cons, hc, if_true]
    exact ih (fun x hx => h x (List.mem_cons_of_mem c hx))

theorem takeWhile_cons_false {p : Char → Bool} {c : Char} (t : List Char)
    (h : p c = false) : (c :: t).takeWhile p = [] := by
  simp [List.takeWhile_cons, h]

theorem dropWhile_cons_false {p : Char → Bool} {c : Char} (t : List Char)
    (h : p c = false) : (c :: t).dropWhile p = c :: t := by
  simp [List.dropWhile_cons, h]

theorem map_eq_self_of {f : Char → Char} (l : List Char)
    (h : ∀ c ∈ l, f c = c) : l.map f = l := by
  induction l with
  | nil => rfl
  | cons c t ih =>
    simp only [List.map_cons, h c (List.mem_cons_self c t)]
    rw [ih (fun x hx => h x (List.mem_cons_of_mem c hx))]

theorem getLast?_cons_of_ne_nil {α : Type} (a : α) {l : List α} (h : l ≠ []) :
    (a :: l).getLast? = l.getLast? := by
  cases l with
  | nil => exact absurd rfl h
  | cons b t => rfl

theorem getLast?_append_some {α : Type} {r : List α} {c : α} (l : List α)
    (h : r.getLast? = some c) : (l ++ r).getLast? = some c := by
  induction l with
  | nil => simpa using h
  | cons a t ih =>
    have hr : r ≠ [] := by intro he; rw [he] at h; exact Option.noConfusion h
    have ht : t ++ r ≠ [] := by
      intro he
      exact hr (List.append_eq_nil.mp he).2
    rw [List.cons_append, getLast?_cons_of_ne_nil a ht]
    exact ih

theorem take_full {α : Type} (l : List α) (n : Nat) (h : l.length ≤ n) : l.take n = l := by
  induction l generalizing n with
  | nil => simp
  | cons a t ih =>
    cases n with
    | zero => simp at h
    | succ m =>
      simp only [List.take_succ_cons]
      rw [ih m (by simpa using h)]

/-! Helper lemmas about the character classes of the regex model. -/

theorem digit_not_space {c : Char} (h : pyIsDigit c = true) : pySpace c = false := by
  simp only [pyIsDigit, Bool.and_eq_true, decide_eq_true_eq] at h
  simp only [pySpace, Bool.or_eq_false_iff, decide_eq_false_iff_not]
  omega

theorem digit_lower {c : Char} (h : pyIsDigit c = true) : lowerChar c = c := by
  simp only [pyIsDigit, Bool.and_eq_true, decide_eq_true_eq] at h
  unfold lowerChar
  rw [if_neg]
  simp only [Bool.and_eq_true, decide_eq_true_eq, not_and]
  omega

theorem ne_of_digit_head {l : List Char} {c c0 : Char} (hl : l.head? = some c)
    (hc : pyIsDigit c = true) {s : String} (hs : s.data.head? = some c0)
    (hc0 : pyIsDigit c0 = false) : String.mk l ≠ s := by
  intro h
  have hd : l = s.data := congrArg String.data h
  rw [hd, hs] at hl
  have : c0 = c := Option.some.inj hl
  rw [this] at hc0
  rw [hc] at hc0
  exact Bool.noConfusion hc0

theorem pyStripL_no_edge_space (l : List Char)
    (h1 : ∀ c, l.head? = some c → pySpace c = false)
    (h2 : ∀ c, l.getLast? = some c → pySpace c = false) : pyStripL l = l := by
  unfold pyStripL stripLeftL stripRightL
  have hleft : l.dropWhile pySpace = l := by
    cases l with
    | nil => rfl
    | cons c t => exact dropWhile_cons_false t (h1 c rfl)
  rw [hleft]
  cases hrev : l.reverse with
  | nil =>
    have : l = [] := by simpa using congrArg List.reverse hrev
    simp [this]
  | cons c t =>
    have hlast : l.getLast? = some c := by
      rw [← List.head?_reverse, hrev]; rfl
    rw [dropWhile_cons_false t (h2 c hlast), ← hrev, List.reverse_reverse]

theorem unitWords_lower : ∀ p ∈ unitWords, ∀ c ∈ p.1, lowerChar c = c := by decide

/-- The regex model accepts a canonical relative-date phrase: a non-empty digit
string, a space, a unit word of the regex alternation, a space, the literal
ago, and returns the digit value with the unit's interval kind. -/
theorem matchRel_canonical (ds w : List Char) (u : RUnit) (hmem : (w, u) ∈ unitWords)
    (hne : ds ≠ []) (hd : ∀ c ∈ ds, pyIsDigit c = true) :
    matchRel (ds ++ ' ' :: (w ++ ' ' :: ("ago".data))) = some (digitsVal ds, u) := by
  have h1 : (ds ++ ' ' :: (w ++ ' ' :: ("ago".data))).takeWhile pyIsDigit = ds := by
    rw [takeWhile_append_of_all _ _ hd, takeWhile_cons_false _ (by decide), List.append_nil]
  have h2 : (ds ++ ' ' :: (w ++ ' ' :: ("ago".data))).dropWhile pyIsDigit
      = ' ' :: (w ++ ' ' :: ("ago".data)) := by
    rw [dropWhile_append_of_all _ _ hd, dropWhile_cons_false _ (by decide)]
  have hne' : ds.isEmpty = false := by
    cases ds with
    | nil => exact absurd rfl hne
    | cons a t => rfl
  simp only [matchRel, h1, h2, hne']
  fin_cases hmem <;> rfl

/-- parse_relative_date on a canonical relative-date phrase yields the ISO
form of the corresponding calendar subtraction. -/
theorem parse_relative_canonical (now : Date) (ds w : List Char) (u : RUnit)
    (hmem : (w, u) ∈ unitWords) (hne : ds ≠ []) (hd : ∀ c ∈ ds, pyIsDigit c = true) :
    parse_relative_date (String.mk (ds ++ ' ' :: (w ++ ' ' :: ("ago".data)))) now
      = isoformat (applySub now (digitsVal ds) u) := by
  obtain ⟨c, ds', rfl⟩ : ∃ c ds', ds = c :: ds' := by
    cases ds with
    | nil => exact absurd rfl hne
    | cons a t => exact ⟨a, t, rfl⟩
  have hcd : pyIsDigit c = true := hd c (List.mem_cons_self c ds')
  have hhead : ((c :: ds') ++ ' ' :: (w ++ ' ' :: ("ago".data))).head? = some c := rfl
  have hlast : ((c :: ds') ++ ' ' :: (w ++ ' ' :: ("ago".data))).getLast? = some 'o' := by
    apply getLast?_append_some
    show (' ' :: (w ++ ' ' :: ("ago".data))).getLast? = some 'o'
    have hsplit : (' ' :: (w ++ ' ' :: ("ago".data)))
        = (' ' :: w) ++ (' ' :: ("ago".data)) := by simp
    rw [hsplit]
    exact getLast?_append_some _ rfl
  have hstrip : pyStripL ((c :: ds') ++ ' ' :: (w ++ ' ' :: ("ago".data)))
      = (c :: ds') ++ ' ' :: (w ++ ' ' :: ("ago".data)) := by
    apply pyStripL_no_edge_space
    · intro x hx
      rw [hhead] at hx
      have hcx := Option.some.inj hx
      rw [← hcx]
      exact digit_not_space hcd
    · intro x hx
      rw [hlast] at hx
      have hcx := Option.some.inj hx
      rw [← hcx]
      decide
  have hmap : ((c :: ds') ++ ' ' :: (w ++ ' ' :: ("ago".data))).map lowerChar
      = (c :: ds') ++ ' ' :: (w ++ ' ' :: ("ago".data)) := by
    apply map_eq_self_of
    intro x hx
    rcases List.mem_append.mp hx with h | h
    · exact digit_lower (hd x h)
    · rcases List.mem_cons.mp h with h' | h'
      · rw [h']; decide
      · rcases List.mem_append.mp h' with h2 | h2
        · exact unitWords_lower (w, u) hmem x h2
        · have hall : ∀ y ∈ (' ' :: ("ago".data)), lowerChar y = y := by decide
          exact hall x h2
  have hne_str : String.mk ((c :: ds') ++ ' ' :: (w ++ ' ' :: ("ago".data))) ≠ "" := by
    intro h
    have hd2 : (c :: ds') ++ ' ' :: (w ++ ' ' :: ("ago".data)) = [] := by
      simpa using congrArg String.data h
    simp at hd2
  have htoday : String.mk ((c :: ds') ++ ' ' :: (w ++ ' ' :: ("ago".data))) ≠ "today" :=
    ne_of_digit_head hhead hcd rfl (by decide)
  have hyest : String.mk ((c :: ds') ++ ' ' :: (w ++ ' ' :: ("ago".data))) ≠ "yesterday" :=
    ne_of_digit_head hhead hcd rfl (by decide)
  have hps : pyStrip (String.mk ((c :: ds') ++ ' ' :: (w ++ ' ' :: ("ago".data))))
      = String.mk ((c :: ds') ++ ' ' :: (w ++ ' ' :: ("ago".data))) := by
    unfold pyStrip
    rw [show (String.mk ((c :: ds') ++ ' ' :: (w ++ ' ' :: ("ago".data)))).data
        = (c :: ds') ++ ' ' :: (w ++ ' ' :: ("ago".data)) from rfl, hstrip]
  have hlo : pyLower (String.mk ((c :: ds') ++ ' ' :: (w ++ ' ' :: ("ago".data))))
      = String.mk ((c :: ds') ++ ' ' :: (w ++ ' ' :: ("ago".data))) := by
    unfold pyLower
    rw [show (String.mk ((c :: ds') ++ ' ' :: (w ++ ' ' :: ("ago".data)))).data
        = (c :: ds') ++ ' ' :: (w ++ ' ' :: ("ago".data)) from rfl, hmap]
  simp only [parse_relative_date]
  rw [if_neg hne_str, hps, hlo, if_neg htoday, if_neg hyest]
  rw [show (String.mk ((c :: ds') ++ ' ' :: (w ++ ' ' :: ("ago".data)))).data
      = (c :: ds') ++ ' ' :: (w ++ ' ' :: ("ago".data)) from rfl]
  rw [matchRel_canonical (c :: ds') w u hmem (by simp) hd]

/-! Helper lemmas about the crawl loop. -/

/-- Once the accumulated record count meets the cap, the loop performs no
fetch and no resolution at all: it returns the accumulator unchanged with an
empty trace. -/
theorem scrapeAux_stop (env : Env) (site : String → Option Node) (searchUrl : String)
    (k : Int) (fuel : Nat) (next : Option String) (acc : List JobListing)
    (h : k ≤ (acc.length : Int)) :
    scrapeAux env site searchUrl k fuel next acc = (acc, [], true) := by
  cases next with
  | none => cases fuel <;> rfl
  | some url => cases fuel <;> simp [scrapeAux, h]

/-- The crawl loop never accumulates past the cap: the result length is
bounded by the larger of the starting length and the cap. -/
theorem scrapeAux_len (env : Env) (site : String → Option Node) (searchUrl : String)
    (k : Int) : ∀ (fuel : Nat) (next : Option String) (acc : List JobListing),
    (scrapeAux env site searchUrl k fuel next acc).1.length ≤ max acc.length k.toNat := by
  intro fuel
  induction fuel with
  | zero =>
    intro next acc
    cases next with
    | none => exact Nat.le_max_left _ _
    | some url =>
      by_cases h : k ≤ (acc.length : Int)
      · simp only [scrapeAux, if_pos h]
        exact Nat.le_max_left _ _
      · simp only [scrapeAux, if_neg h]
        exact Nat.le_max_left _ _
  | succ f ih =>
    intro next acc
    cases next with
    | none => exact Nat.le_max_left _ _
    | some url =>
      by_cases h : k ≤ (acc.length : Int)
      · simp only [scrapeAux, if_pos h]
        exact Nat.le_max_left _ _
      · simp only [scrapeAux, if_neg h]
        cases hsite : site url with
        | none => exact Nat.le_max_left _ _
        | some soup =>
          rcases hp : parse_listing_page env soup searchUrl url with ⟨jobs, next2⟩
          dsimp only
          rw [hp]
          have hlen : (acc ++ jobs.take (k.toNat - acc.length)).length ≤ k.toNat := by
            simp only [List.length_append, List.length_take]
            omega
          cases next2 with
          | none => exact le_trans hlen (Nat.le_max_right _ _)
          | some u2 =>
            have hr := ih (some u2) (acc ++ jobs.take (k.toNat - acc.length))
            exact le_trans (le_trans hr (le_of_eq (Nat.max_eq_right hlen)))
              (Nat.le_max_right _ _)

/-- Every successfully fetched page is also resolved: when the trace records a
fetch of a URL the site serves, it also records its resolution. -/
theorem scrapeAux_resolve_of_fetch (env : Env) (site : String → Option Node)
    (searchUrl : String) (k : Int) : ∀ (fuel : Nat) (next : Option String)
    (acc : List JobListing) (u : String) (soup : Node), site u = some soup →
    Ev.fetch u ∈ (scrapeAux env site searchUrl k fuel next acc).2.1 →
    Ev.resolve u ∈ (scrapeAux env site searchUrl k fuel next acc).2.1 := by
  intro fuel
  induction fuel with
  | zero =>
    intro next acc u soup hu hm
    cases next with
    | none => simp [scrapeAux] at hm
    | some url =>
      by_cases h : k ≤ (acc.length : Int)
      · simp [scrapeAux, h] at hm
      · simp [scrapeAux, h] at hm
  | succ f ih =>
    intro next acc u soup hu hm
    cases next with
    | none => simp [scrapeAux] at hm
    | some url =>
      by_cases h : k ≤ (acc.length : Int)
      · simp [scrapeAux, h] at hm
      · simp only [scrapeAux, if_neg h] at hm ⊢
        cases hsite : site url with
        | none =>
          rw [hsite] at hm
          simp at hm
          subst hm
          rw [hu] at hsite
          exact Option.noConfusion hsite
        | some soup2 =>
          rw [hsite] at hm
          rcases hp : parse_listing_page env soup2 searchUrl url with ⟨jobs, next2⟩
          dsimp only at hm ⊢
          rw [hp] at hm ⊢
          cases next2 with
          | none =>
            simp at hm ⊢
            exact hm
          | some u2 =>
            simp at hm ⊢
            rcases hm with hm | hm
            · left; exact hm
            · right
              exact ih (some u2) (acc ++ jobs.take (k.toNat - acc.length)) u soup hu hm

/-- When the resolver returned none for a fetched page, that resolution is the
final event of the trace: no further page is fetched afterwards. -/
theorem scrapeAux_resolve_none_last (env : Env) (site : String → Option Node)
    (searchUrl : String) (k : Int) : ∀ (fuel : Nat) (next : Option String)
    (acc : List JobListing) (u : String) (soup : Node), site u = some soup →
    (parse_listing_page env soup searchUrl u).2 = none →
    Ev.resolve u ∉ (scrapeAux env site searchUrl k fuel next acc).2.1 ∨
    (scrapeAux env site searchUrl k fuel next acc).2.1.getLast? = some (Ev.resolve u) := by
  intro fuel
  induction fuel with
  | zero =>
    intro next acc u soup hu hp2
    left
    cases next with
    | none => simp [scrapeAux]
    | some url =>
      by_cases h : k ≤ (acc.length : Int)
      · simp [scrapeAux, h]
      · simp [scrapeAux, h]
  | succ f ih =>
    intro next acc u soup hu hp2
    cases next with
    | none => left; simp [scrapeAux]
    | some url =>
      by_cases h : k ≤ (acc.length : Int)
      · left; simp [scrapeAux, h]
      · simp only [scrapeAux, if_neg h]
        cases hsite : site url with
        | none =>
          left
          simp
        | some soup2 =>
          rcases hpp : parse_listing_page env soup2 searchUrl url with ⟨jobs, next2⟩
          dsimp only
          rw [hpp]
          cases next2 with
          | none =>
            by_cases hul : u = url
            · subst hul
              right
              rfl
            · left
              intro hmem
              simp at hmem
              exact hul hmem
          | some u2 =>
            by_cases hul : u = url
            · subst hul
              rw [hu] at hsite
              have hs2 := Option.some.inj hsite
              rw [← hs2] at hpp
              rw [hpp] at hp2
              simp at hp2
            · have hrec := ih (some u2) (acc ++ jobs.take (k.toNat - acc.length))
                u soup hu hp2
              rcases hrec with hnot | hlast
              · left
                intro hmem
                simp at hmem
                rcases hmem with hmem | hmem
                · exact hul hmem
                · exact hnot hmem
              · right
                have hne : (scrapeAux env site searchUrl k f (some u2)
                    (acc ++ jobs.take (k.toNat - acc.length))).2.1 ≠ [] := by
                  intro he
                  rw [he] at hlast
                  exact Option.noConfusion hlast
                show (Ev.fetch url :: Ev.resolve url :: (scrapeAux env site searchUrl k f
                    (some u2) (acc ++ jobs.take (k.toNat - acc.length))).2.1).getLast?
                    = some (Ev.resolve u)
                rw [getLast?_cons_of_ne_nil _ (List.cons_ne_nil _ _),
                  getLast?_cons_of_ne_nil _ hne]
                exact hlast

/-- When the crawl completed within its fuel, a successfully fetched page that
produced zero records and a next URL is always followed: the next URL is
fetched as well (an empty page is not a stop condition). -/
theorem scrapeAux_empty_page_next (env : Env) (site : String → Option Node)
    (searchUrl : String) (k : Int) : ∀ (fuel : Nat) (next : Option String)
    (acc : List JobListing) (u : String) (soup : Node) (u2 : String),
    (scrapeAux env site searchUrl k fuel next acc).2.2 = true →
    Ev.fetch u ∈ (scrapeAux env site searchUrl k fuel next acc).2.1 →
    site u = some soup →
    parse_listing_page env soup searchUrl u = ([], some u2) →
    Ev.fetch u2 ∈ (scrapeAux env site searchUrl k fuel next acc).2.1 := by
  intro fuel
  induction fuel with
  | zero =>
    intro next acc u soup u2 hok hm hu hp
    cases next with
    | none => simp [scrapeAux] at hm
    | some url =>
      by_cases h : k ≤ (acc.length : Int)
      · simp [scrapeAux, h] at hm
      · simp [scrapeAux, h] at hm
  | succ f ih =>
    intro next acc u soup u2 hok hm hu hp
    cases next with
    | none => simp [scrapeAux] at hm
    | some url =>
      by_cases h : k ≤ (acc.length : Int)
      · simp [scrapeAux, h] at hm
      · simp only [scrapeAux, if_neg h] at hok hm ⊢
        cases hsite : site url with
        | none =>
          rw [hsite] at hm
          simp at hm
          subst hm
          rw [hu] at hsite
          exact Option.noConfusion hsite
        | some soup2 =>
          rw [hsite] at hok hm
          rcases hpp : parse_listing_page env soup2 searchUrl url with ⟨jobs, next2⟩
          dsimp only at hok hm ⊢
          rw [hpp] at hok hm ⊢
          cases next2 with
          | none =>
            simp at hm
            subst hm
            rw [hu] at hsite
            have hs2 := Option.some.inj hsite
            rw [← hs2] at hpp
            rw [hp] at hpp
            simp at hpp
          | some u2' =>
            dsimp only at hok hm ⊢
            simp at hm
            rcases hm with hm | hm
            · subst hm
              rw [hu] at hsite
              have hs2 := Option.some.inj hsite
              rw [← hs2] at hpp
              rw [hp] at hpp
              have hj : ([] : List JobListing) = jobs := congrArg Prod.fst hpp
              have hn : some u2 = some u2' := congrArg Prod.snd hpp
              have hu2 : u2 = u2' := Option.some.inj hn
              subst hu2
              rw [← hj] at hok ⊢
              have hacc : acc ++ List.take (k.toNat - acc.length)
                  ([] : List JobListing) = acc := by simp
              rw [hacc] at hok ⊢
              cases f with
              | zero =>
                rw [show scrapeAux env site searchUrl k 0 (some u2) acc = (acc, [], false)
                  from by simp [scrapeAux, h]] at hok
                simp at hok
              | succ f2 =>
                simp only [scrapeAux, if_neg h]
                cases hsite2 : site u2 with
                | none => simp
                | some s2 =>
                  rcases hpp2 : parse_listing_page env s2 searchUrl u2 with ⟨j2, n2⟩
                  dsimp only
                  rw [hpp2]
                  cases n2 with
                  | none => simp
                  | some u3 => simp
            · have := ih (some u2') (acc ++ jobs.take (k.toNat - acc.length))
                u soup u2 hok hm hu hp
              exact List.mem_cons_of_mem _ (List.mem_cons_of_mem _ this)

/-- A search whose first fetch fails yields no records. -/
theorem scrape_single_search_fail (env : Env) (site : String → Option Node)
    (fuel : Nat) (u : String) (k : Int) (h : site u = none) :
    (scrape_single_search env site fuel u k).1 = [] := by
  unfold scrape_single_search
  by_cases hk : k ≤ ((([] : List JobListing).length : Int))
  · rw [scrapeAux_stop env site u k fuel (some u) [] hk]
  · have hk0 : ¬k ≤ (0 : Int) := by simpa using hk
    cases fuel with
    | zero => simp [scrapeAux, hk0]
    | succ f => simp [scrapeAux, hk0, h]

/-- The attempt loop performs at most the remaining number of attempts, and
returns none when every attempt in range errors. -/
theorem fetchFromAttempt_bound (net : Nat → AttemptResult) :
    ∀ (r i : Nat), (fetchFromAttempt net i r).2 ≤ r ∧
    ((∀ j, i ≤ j → j < i + r → net j = AttemptResult.err) →
      (fetchFromAttempt net i r).1 = none) := by
  intro r
  induction r with
  | zero => exact fun i => ⟨Nat.le_refl 0, fun _ => rfl⟩
  | succ n ih =>
    intro i
    constructor
    · cases hnet : net i with
      | ok b => simp [fetchFromAttempt, hnet]
      | err =>
        by_cases hn : n = 0
        · subst hn
          simp [fetchFromAttempt, hnet]
        · simp only [fetchFromAttempt, hnet]
          rw [if_neg hn]
          have hb := (ih (i + 1)).1
          dsimp only
          omega
    · intro hall
      cases hnet : net i with
      | ok b =>
        have := hall i (Nat.le_refl i) (by omega)
        rw [hnet] at this
        exact AttemptResult.noConfusion this
      | err =>
        by_cases hn : n = 0
        · subst hn
          simp [fetchFromAttempt, hnet]
        · simp only [fetchFromAttempt, hnet]
          rw [if_neg hn]
          have := (ih (i + 1)).2 (fun j hj1 hj2 => hall j (by omega) (by omega))
          dsimp only
          exact this

/-! Claim theorems. -/

/-- C2: for every job-card node, search URL and page URL, _parse_job_card
returns none exactly when both the extracted title and the extracted link are
empty strings, and returns a record otherwise; hence every emitted JobRecord
has a non-empty jobTitle or a non-empty jobLink. -/
theorem C2_admissibility_gate (env : Env) (card : Node) (searchUrl currentUrl : String) :
    (parse_job_card env card searchUrl currentUrl = none ↔
      extractTitle card = "" ∧ extractLink env card currentUrl = "") ∧
    (∀ r, parse_job_card env card searchUrl currentUrl = some r →
      r.jobTitle ≠ "" ∨ r.jobLink ≠ "") := by
  simp only [parse_job_card]
  by_cases h : extractTitle card = "" ∧ extractLink env card currentUrl = ""
  · rw [if_pos h]
    exact ⟨⟨fun _ => h, fun _ => rfl⟩, fun r hr => Option.noConfusion hr⟩
  · rw [if_neg h]
    constructor
    · exact ⟨fun hc => Option.noConfusion hc, fun hc => absurd hc h⟩
    · intro r hr
      rw [← Option.some.inj hr]
      rcases not_and_or.mp h with h1 | h1
      · left; exact h1
      · right; exact h1

/-- Witness for C2: the fixture card is admissible and satisfies the
disjunction; the noise card is rejected. -/
theorem C2_admissibility_gate_witness :
    (parse_job_card env0 card0 "S" "U" = some rec0 ∧
      (rec0.jobTitle ≠ "" ∨ rec0.jobLink ≠ "")) ∧
    parse_job_card env0 cardNoise "S" "U" = none := by
  refine ⟨⟨by decide, ?_⟩, ?_⟩
  · exact (C2_admissibility_gate env0 card0 "S" "U").2 rec0 (by decide)
  · exact (C2_admissibility_gate env0 cardNoise "S" "U").1.mpr (by decide)

/-- C7: _find_job_cards returns exactly the matches of the first selector of
the fixed order div.has-pointer-d, div.job-card, li.job, article.job that
yields at least one match, never merging selectors; when none matches it
returns every li node of the document. -/
theorem C7_locator_first_selector (soup : Node) :
    (∀ x xs, select soup cardSel1 = x :: xs → find_job_cards soup = x :: xs) ∧
    (select soup cardSel1 = [] → ∀ x xs, select soup cardSel2 = x :: xs →
      find_job_cards soup = x :: xs) ∧
    (select soup cardSel1 = [] → select soup cardSel2 = [] → ∀ x xs,
      select soup cardSel3 = x :: xs → find_job_cards soup = x :: xs) ∧
    (select soup cardSel1 = [] → select soup cardSel2 = [] → select soup cardSel3 = [] →
      ∀ x xs, select soup cardSel4 = x :: xs → find_job_cards soup = x :: xs) ∧
    (select soup cardSel1 = [] → select soup cardSel2 = [] → select soup cardSel3 = [] →
      select soup cardSel4 = [] → find_job_cards soup = findAllTag soup "li") := by
  refine ⟨?_, ?_, ?_, ?_, ?_⟩
  · intro x xs h
    unfold find_job_cards
    rw [h]
  · intro h1 x xs h
    unfold find_job_cards
    rw [h1, h]
  · intro h1 h2 x xs h
    unfold find_job_cards
    rw [h1, h2, h]
  · intro h1 h2 h3 x xs h
    unfold find_job_cards
    rw [h1, h2, h3, h]
  · intro h1 h2 h3 h4
    unfold find_job_cards
    rw [h1, h2, h3, h4]

/-- Witness for C7: the fixture page matches the first selector; the li-only
page falls back to every li node. -/
theorem C7_locator_first_selector_witness :
    find_job_cards page1 = [card0, card0, card0] ∧
    find_job_cards liPage = findAllTag liPage "li" := by
  constructor
  · exact (C7_locator_first_selector page1).1 card0 [card0, card0] rfl
  · exact (C7_locator_first_selector liPage).2.2.2.2 rfl rfl rfl rfl

/-- C6: _find_next_page_url tries the rel-next strategy, then the class
strategy, then numeric pagination, in this order with first match winning;
the chosen href is resolved against the current page URL and none is
returned when no strategy matches. -/
theorem C6_next_page_strategies (env : Env) (soup : Node) (currentUrl : String) :
    (∀ h, strat1 soup = some h →
      find_next_page_url env soup currentUrl = some (build_absolute_url env currentUrl h)) ∧
    (strat1 soup = none → ∀ h, strat2 soup = some h →
      find_next_page_url env soup currentUrl = some (build_absolute_url env currentUrl h)) ∧
    (strat1 soup = none → strat2 soup = none → ∀ h, strat3 soup = some h →
      find_next_page_url env soup currentUrl = some (build_absolute_url env currentUrl h)) ∧
    (strat1 soup = none → strat2 soup = none → strat3 soup = none →
      find_next_page_url env soup currentUrl = none) := by
  refine ⟨?_, ?_, ?_, ?_⟩
  · intro h hs
    unfold find_next_page_url
    rw [hs]
  · intro h1 h hs
    unfold find_next_page_url
    rw [h1, hs]
  · intro h1 h2 h hs
    unfold find_next_page_url
    rw [h1, h2, hs]
  · intro h1 h2 h3
    unfold find_next_page_url
    rw [h1, h2, h3]

/-- Witness for C6: the fixture listing page resolves through rel-next, the
numeric-pagination page through strategy 3, the empty page to none. -/
theorem C6_next_page_strategies_witness :
    find_next_page_url env0 page1 "p1" = some (build_absolute_url env0 "p1" "p2") ∧
    find_next_page_url env0 pag "cur" = some (build_absolute_url env0 "cur" "pX") ∧
    find_next_page_url env0 page2 "x" = none := by
  refine ⟨?_, ?_, ?_⟩
  · exact (C6_next_page_strategies env0 page1 "p1").1 "p2" (by decide)
  · exact (C6_next_page_strategies env0 pag "cur").2.2.1 (by decide) (by decide) "pX" (by decide)
  · exact (C6_next_page_strategies env0 page2 "x").2.2.2 (by decide) (by decide) (by decide)

/-- C10: for every search URL and every cap at most zero, _scrape_single_search
performs no fetch at all (empty trace) and returns the empty list: the loop
guard checks the budget before the first fetch. -/
theorem C10_nonpositive_cap (env : Env) (site : String → Option Node) (fuel : Nat)
    (url : String) (k : Int) (h : k ≤ 0) :
    scrape_single_search env site fuel url k = ([], [], true) := by
  unfold scrape_single_search
  exact scrapeAux_stop env site url k fuel (some url) [] (by simpa using h)

/-- Witness for C10 at caps zero and minus two on the fixture site. -/
theorem C10_nonpositive_cap_witness :
    scrape_single_search env0 site0 3 "p1" 0 = ([], [], true) ∧
    scrape_single_search env0 site0 3 "p1" (-2) = ([], [], true) :=
  ⟨C10_nonpositive_cap env0 site0 3 "p1" 0 (by decide),
   C10_nonpositive_cap env0 site0 3 "p1" (-2) (by decide)⟩

/-- C1 counterexample: on a page with three extractable cards, a cap of two
and a next link, the crawler caps the output at two and fetches no second
page, but the trace does contain a resolution of the capped page: the claim's
"stops immediately without resolving a next page" fails, because
_parse_listing_page resolves the next-page URL of every parsed page before
the cap is applied. -/
theorem C1_counterexample :
    (parse_listing_page env0 page1 "p1" "p1").1.length = 3 ∧
    (scrape_single_search env0 site0 5 "p1" 2).1.length = 2 ∧
    Ev.resolve "p1" ∈ (scrape_single_search env0 site0 5 "p1" 2).2.1 ∧
    Ev.fetch "p2" ∉ (scrape_single_search env0 site0 5 "p1" 2).2.1 := by decide

/-- C1 amended: the crawler emits at most k records; when the first fetched
page alone meets the cap, the output is the first k records of that page
(records beyond the cap are discarded), the trace is exactly one fetch and
one resolution of that page (the page's next URL is still resolved during
parsing but never followed), and no further page is fetched. -/
theorem C1_cap_enforcement (env : Env) (site : String → Option Node) (fuel : Nat)
    (url : String) (k : Int) :
    (scrape_single_search env site fuel url k).1.length ≤ k.toNat ∧
    (∀ f soup jobs next2, fuel = f + 1 → site url = some soup →
      parse_listing_page env soup url url = (jobs, next2) → 0 < k →
      k.toNat ≤ jobs.length →
      scrape_single_search env site fuel url k
        = (jobs.take k.toNat, [Ev.fetch url, Ev.resolve url], true)) := by
  constructor
  · have hb := scrapeAux_len env site url k fuel (some url) []
    simpa using hb
  · intro f soup jobs next2 hf hsite hp hk hjobs
    subst hf
    unfold scrape_single_search
    simp only [scrapeAux]
    rw [if_neg (by simp; omega)]
    rw [hsite]
    dsimp only
    rw [hp]
    dsimp only
    have htake : (([] : List JobListing) ++
        jobs.take (k.toNat - ([] : List JobListing).length)) = jobs.take k.toNat := by
      simp
    cases next2 with
    | none =>
      rw [htake]
    | some u2 =>
      have hlen2 : (jobs.take k.toNat).length = k.toNat := by
        simp only [List.length_take]
        exact Nat.min_eq_left hjobs
      rw [htake]
      dsimp only
      have hstop := scrapeAux_stop env site url k f (some u2) (jobs.take k.toNat)
        (by rw [hlen2]; omega)
      rw [hstop]

/-- Witness for C1 amended at the fixture site with cap two. -/
theorem C1_cap_enforcement_witness :
    (scrape_single_search env0 site0 5 "p1" 2).1.length ≤ 2 ∧
    scrape_single_search env0 site0 5 "p1" 2
      = ((parse_listing_page env0 page1 "p1" "p1").1.take 2,
         [Ev.fetch "p1", Ev.resolve "p1"], true) := by
  constructor
  · exact (C1_cap_enforcement env0 site0 5 "p1" 2).1
  · exact (C1_cap_enforcement env0 site0 5 "p1" 2).2 4 page1
      (parse_listing_page env0 page1 "p1" "p1").1 (parse_listing_page env0 page1 "p1" "p1").2
      rfl rfl rfl (by decide) (by decide)

/-- C5: the fetcher performs at most max_retries attempts and returns none
once all attempts fail; a mid-crawl fetch failure ends the search with the
records of the previous pages; and a search whose pages all fail to fetch
does not prevent later search definitions from being processed. -/
theorem C5_fetch_failure_handling :
    (∀ net maxRetries, (HttpClient.fetch net maxRetries).2 ≤ maxRetries ∧
      ((∀ i, 1 ≤ i → i ≤ maxRetries → net i = AttemptResult.err) →
        (HttpClient.fetch net maxRetries).1 = none)) ∧
    (∀ (env : Env) site f url k soup jobs u2, site url = some soup →
      parse_listing_page env soup url url = (jobs, some u2) → site u2 = none →
      (jobs.length : Int) < k →
      scrape_single_search env site (f + 2) url k
        = (jobs, [Ev.fetch url, Ev.resolve url, Ev.fetch u2], true)) ∧
    (∀ (env : Env) site fuel s rest fb u, s.url = some u → u ≠ "" → site u = none →
      scrape_searches env site fuel (s :: rest) fb = scrape_searches env site fuel rest fb) := by
  refine ⟨?_, ?_, ?_⟩
  · intro net maxRetries
    constructor
    · exact (fetchFromAttempt_bound net maxRetries 1).1
    · intro hall
      exact (fetchFromAttempt_bound net maxRetries 1).2
        (fun j hj1 hj2 => hall j hj1 (by omega))
  · intro env site f url k soup jobs u2 hsite hp hfail hjk
    unfold scrape_single_search
    simp only [scrapeAux]
    rw [if_neg (by simp; omega)]
    rw [hsite]
    dsimp only
    rw [hp]
    dsimp only
    have htake : (([] : List JobListing) ++
        jobs.take (k.toNat - ([] : List JobListing).length)) = jobs := by
      simp only [List.nil_append, List.length_nil, Nat.sub_zero]
      exact take_full jobs k.toNat (by omega)
    rw [htake, if_neg (not_le.mpr hjk), hfail]
  · intro env site fuel s rest fb u hurl hne hfail
    simp only [scrape_searches]
    rw [hurl]
    dsimp only
    rw [if_neg hne]
    rw [scrape_single_search_fail env site fuel u (effectiveMax s fb) hfail]
    simp

/-- Witness for C5: an always-failing network at three retries, a success at
the second attempt, the fixture mid-crawl failure, and a failing search
followed by a successful one. -/
theorem C5_fetch_failure_handling_witness :
    ((HttpClient.fetch (fun _ => AttemptResult.err) 3).2 ≤ 3 ∧
      (HttpClient.fetch (fun _ => AttemptResult.err) 3).1 = none) ∧
    scrape_single_search env0 siteF 5 "p1" 10
      = ((parse_listing_page env0 page1 "p1" "p1").1,
         [Ev.fetch "p1", Ev.resolve "p1", Ev.fetch "p2"], true) ∧
    scrape_searches env0 site0 5
        [{ url := some "dead" }, { url := some "p1", maxItems := some 2 }] 7
      = scrape_searches env0 site0 5 [{ url := some "p1", maxItems := some 2 }] 7 := by
  refine ⟨?_, ?_, ?_⟩
  · exact ⟨(C5_fetch_failure_handling.1 (fun _ => AttemptResult.err) 3).1,
      (C5_fetch_failure_handling.1 (fun _ => AttemptResult.err) 3).2 (fun _ _ _ => rfl)⟩
  · exact C5_fetch_failure_handling.2.1 env0 siteF 3 "p1" 10 page1
      (parse_listing_page env0 page1 "p1" "p1").1 "p2" rfl (by decide)
      rfl (by decide)
  · exact C5_fetch_failure_handling.2.2 env0 site0 5 { url := some "dead" }
      [{ url := some "p1", maxItems := some 2 }] 7 "dead" rfl (by decide) rfl

/-- C8: every successfully fetched page is resolved, even when it yields zero
records; a page whose resolution is none ends the trace (no further fetch);
and a fetched empty page with a next link is always followed when the crawl
completed within its fuel. -/
theorem C8_resolve_always_and_stop (env : Env) (site : String → Option Node) (fuel : Nat)
    (searchUrl : String) (k : Int) :
    (∀ u soup, site u = some soup →
      Ev.fetch u ∈ (scrape_single_search env site fuel searchUrl k).2.1 →
      Ev.resolve u ∈ (scrape_single_search env site fuel searchUrl k).2.1) ∧
    (∀ u soup, site u = some soup →
      (parse_listing_page env soup searchUrl u).2 = none →
      Ev.resolve u ∉ (scrape_single_search env site fuel searchUrl k).2.1 ∨
      (scrape_single_search env site fuel searchUrl k).2.1.getLast?
        = some (Ev.resolve u)) ∧
    (∀ u soup u2, (scrape_single_search env site fuel searchUrl k).2.2 = true →
      Ev.fetch u ∈ (scrape_single_search env site fuel searchUrl k).2.1 →
      site u = some soup → parse_listing_page env soup searchUrl u = ([], some u2) →
      Ev.fetch u2 ∈ (scrape_single_search env site fuel searchUrl k).2.1) := by
  refine ⟨?_, ?_, ?_⟩
  · intro u soup hu hm
    exact scrapeAux_resolve_of_fetch env site searchUrl k fuel (some searchUrl) [] u soup hu hm
  · intro u soup hu hp2
    exact scrapeAux_resolve_none_last env site searchUrl k fuel (some searchUrl) [] u soup hu hp2
  · intro u soup u2 hok hm hu hp
    exact scrapeAux_empty_page_next env site searchUrl k fuel (some searchUrl) []
      u soup u2 hok hm hu hp

/-- Witness for C8 on the two-empty-pages fixture site. -/
theorem C8_resolve_always_and_stop_witness :
    Ev.resolve "e1" ∈ (scrape_single_search env0 siteE 5 "e1" 10).2.1 ∧
    (Ev.resolve "e2" ∉ (scrape_single_search env0 siteE 5 "e1" 10).2.1 ∨
      (scrape_single_search env0 siteE 5 "e1" 10).2.1.getLast? = some (Ev.resolve "e2")) ∧
    Ev.fetch "e2" ∈ (scrape_single_search env0 siteE 5 "e1" 10).2.1 := by
  refine ⟨?_, ?_, ?_⟩
  · exact (C8_resolve_always_and_stop env0 siteE 5 "e1" 10).1 "e1" pageE1
      rfl (by decide)
  · exact (C8_resolve_always_and_stop env0 siteE 5 "e1" 10).2.1 "e2" pageE2
      rfl (by decide)
  · exact (C8_resolve_always_and_stop env0 siteE 5 "e1" 10).2.2 "e1" pageE1 "e2"
      (by decide) (by decide) rfl (by decide)

/-- C3 counterexample: the string 3-days-agox is not of the form n-unit-ago
and is not today or yesterday, so under the claim it must come back as the
trimmed original text; the regex of the code matches by prefix and the
function normalizes it to a date instead. -/
theorem C3_counterexample :
    parse_relative_date "3 days agox" ⟨2021, 3, 31⟩ = "2021-03-28" ∧
    pyStrip "3 days agox" = "3 days agox" ∧
    ("2021-03-28" : String) ≠ "3 days agox" := by decide

/-- C3 amended: today maps to the reference date, yesterday to one day
before, and every canonical phrase digit-string, space, unit word, space,
ago maps to the ISO form of the corresponding calendar subtraction (days and
weeks exact, months and years calendar-aware); the regex matches a prefix, so
input with trailing text after ago is normalized as well, and only input the
matcher rejects (and that is not today/yesterday) is returned trimmed
verbatim. -/
theorem C3_relative_date_normalizer :
    (∀ now, parse_relative_date "today" now = isoformat now) ∧
    (∀ now, parse_relative_date "yesterday" now = isoformat (subDays now 1)) ∧
    (∀ now ds w u, (w, u) ∈ unitWords → ds ≠ [] → (∀ c ∈ ds, pyIsDigit c = true) →
      parse_relative_date (String.mk (ds ++ ' ' :: (w ++ ' ' :: ("ago".data)))) now
        = isoformat (applySub now (digitsVal ds) u)) ∧
    (∀ s now, matchRel (pyLower (pyStrip s)).data = none →
      pyLower (pyStrip s) ≠ "today" → pyLower (pyStrip s) ≠ "yesterday" →
      parse_relative_date s now = pyStrip s) := by
  refine ⟨fun now => rfl, fun now => rfl, ?_, ?_⟩
  · intro now ds w u hmem hne hd
    exact parse_relative_canonical now ds w u hmem hne hd
  · intro s now hm ht hy
    by_cases hs : s = ""
    · subst hs
      rfl
    · simp only [parse_relative_date]
      rw [if_neg hs, if_neg ht, if_neg hy, hm]

/-- Witness for C3: a day phrase, a calendar-aware month phrase landing on the
end of February, and an unmatched string returned verbatim. -/
theorem C3_relative_date_normalizer_witness :
    parse_relative_date "today" ⟨2021, 3, 31⟩ = "2021-03-31" ∧
    parse_relative_date "14 days ago" ⟨2021, 3, 10⟩ = "2021-02-24" ∧
    parse_relative_date "1 month ago" ⟨2021, 3, 31⟩ = "2021-02-28" ∧
    parse_relative_date "hello world" ⟨2021, 3, 10⟩ = "hello world" := by
  refine ⟨?_, ?_, ?_, ?_⟩
  · rw [C3_relative_date_normalizer.1 ⟨2021, 3, 31⟩]
    decide
  · have h := C3_relative_date_normalizer.2.2.1 ⟨2021, 3, 10⟩ ("14".data) ("days".data)
      RUnit.day (by decide) (by decide) (by decide)
    have hstr : String.mk ("14".data ++ ' ' :: ("days".data ++ ' ' :: ("ago".data)))
        = "14 days ago" := by decide
    rw [hstr] at h
    rw [h]
    decide
  · have h := C3_relative_date_normalizer.2.2.1 ⟨2021, 3, 31⟩ ("1".data) ("month".data)
      RUnit.month (by decide) (by decide) (by decide)
    have hstr : String.mk ("1".data ++ ' ' :: ("month".data ++ ' ' :: ("ago".data)))
        = "1 month ago" := by decide
    rw [hstr] at h
    rw [h]
    decide
  · have h := C3_relative_date_normalizer.2.2.2 "hello world" ⟨2021, 3, 10⟩
      (by decide) (by decide) (by decide)
    rw [h]
    decide

/-- C4 counterexample: on a card whose career-level text carries two colons,
the code keeps only the segment between the first and the second colon
(split(colon) index 1), while the claim demands everything after the first
colon. -/
theorem C4_counterexample :
    (parse_job_card env0 card0 "S" "U").map JobListing.jobCareerLevel = some "Mid" ∧
    claimCareerLevel card0 = "Mid: Senior" ∧
    (parse_job_card env0 card0 "S" "U").map JobListing.jobCareerLevel
      ≠ some (claimCareerLevel card0) := by decide

/-- C4 amended: for every emitted record, jobCareerLevel is the cleaned
second split segment of the first Career-Level text node, that is the part
strictly between the first and second colons (everything after the first
colon only when there is no further colon); it is empty when the phrase is
absent or the text carries no colon. -/
theorem C4_career_level (env : Env) (card : Node) (searchUrl currentUrl : String) :
    ∀ r, parse_job_card env card searchUrl currentUrl = some r →
      r.jobCareerLevel =
        (match findStringContaining card "Career Level" with
         | none => ""
         | some s =>
           match splitOnChar ':' (pyStripL s.data) with
           | _ :: p1 :: _ => clean_text (String.mk p1)
           | _ => "") := by
  intro r hr
  simp only [parse_job_card] at hr
  by_cases h : extractTitle card = "" ∧ extractLink env card currentUrl = ""
  · rw [if_pos h] at hr
    exact Option.noConfusion hr
  · rw [if_neg h] at hr
    rw [← Option.some.inj hr]
    rfl

/-- Witness for C4 amended on the fixture card with a two-colon career text. -/
theorem C4_career_level_witness :
    parse_job_card env0 card0 "S" "U" = some rec0 ∧ rec0.jobCareerLevel = "Mid" := by
  constructor
  · decide
  · rw [C4_career_level env0 card0 "S" "U" rec0 (by decide)]
    decide

/-- C9 counterexample: the code's description lookup is one select_one over
the whole group, which soupsieve answers in document order, so the paragraph
standing before the description-class element wins; the claim demands the
description-class element. -/
theorem C9_counterexample :
    (parse_job_card env0 card0 "S" "U").map JobListing.jobDescription = some "PARA" ∧
    claimDescription card0 = "DESC" ∧
    (parse_job_card env0 card0 "S" "U").map JobListing.jobDescription
      ≠ some (claimDescription card0) := by decide

/-- C9 amended: jobDescription is the cleaned text of the first node in
document order matching any selector of the group .job-desc,
.job-description, .jbDescription, p — an earlier paragraph takes precedence
over a later description-class element — and is empty when nothing in the
card matches the group. -/
theorem C9_description_doc_order (env : Env) (card : Node) (searchUrl currentUrl : String) :
    (∀ e rest, select card descGroup = e :: rest →
      firstGroupText card descGroup = clean_text (getText e)) ∧
    (select card descGroup = [] → firstGroupText card descGroup = "") ∧
    (∀ r, parse_job_card env card searchUrl currentUrl = some r →
      r.jobDescription = firstGroupText card descGroup) := by
  refine ⟨?_, ?_, ?_⟩
  · intro e rest h
    simp only [firstGroupText, selectOne, h, List.head?_cons]
  · intro h
    simp only [firstGroupText, selectOne, h, List.head?_nil]
  · intro r hr
    simp only [parse_job_card] at hr
    by_cases h : extractTitle card = "" ∧ extractLink env card currentUrl = ""
    · rw [if_pos h] at hr
      exact Option.noConfusion hr
    · rw [if_neg h] at hr
      rw [← Option.some.inj hr]

/-- Witness for C9 amended: on the fixture card the first group match in
document order is the paragraph, not the later description-class element. -/
theorem C9_description_doc_order_witness :
    firstGroupText card0 descGroup
      = clean_text (getText (Node.elem "p" {} [Node.text "PARA"])) ∧
    firstGroupText card0 descGroup = "PARA" := by
  have hsel : select card0 descGroup
      = [Node.elem "p" {} [Node.text "PARA"],
         Node.elem "div" (attrsC ["job-desc"]) [Node.text "DESC"]] := rfl
  constructor
  · exact (C9_description_doc_order env0 card0 "S" "U").1 _ _ hsel
  · rw [(C9_description_doc_order env0 card0 "S" "U").1 _ _ hsel]
    decide

end BaytSpec
